import Mathlib

/-!
Verification development for the experiment runner in
src/experiments/runner.js.

The runner compares two prompt representations of physics problems,
measures latency and correctness over repeated trials, and aggregates
per (problem, representation) statistics.

Modelling conventions:
* JS numbers are modelled as exact rationals.  The IEEE-754 double
  rounding of the source never changes any comparison proved here, and
  the overflow-to-Infinity branch of Number.isFinite is unreachable for
  the numerals this program produces.
* Randomness (Math.random, the Box-Muller normal draw) and the ambient
  environment (wall clock, HTTP responses, the API key) are passed in
  explicitly as parameters, one stream entry per trial.
* Strings are processed as their underlying character lists; regular
  expressions of the source are translated to explicit scanners with
  JS leftmost-match and greedy-with-backtracking semantics.
-/

attribute [local semireducible] Rat.add Rat.sub Rat.mul Rat.inv Rat.ofScientific

namespace Runner

/-- Character class matched by the JS regex class backslash-s
(ECMA-262 WhiteSpace and LineTerminator code points). -/
def isSpaceJS (c : Char) : Bool :=
  c = ' ' || c = '\t' || c = '\n' || c = '\r' || c.toNat = 11 || c.toNat = 12 ||
  c.toNat = 0xa0 || c.toNat = 0x1680 || (0x2000 ≤ c.toNat && c.toNat ≤ 0x200a) ||
  c.toNat = 0x2028 || c.toNat = 0x2029 || c.toNat = 0x202f || c.toNat = 0x205f ||
  c.toNat = 0x3000 || c.toNat = 0xfeff

/-- ASCII lower-casing, as performed by a case-insensitive JS regex on
ASCII letters. -/
def lcase (c : Char) : Char :=
  if 'A' ≤ c && c ≤ 'Z' then Char.ofNat (c.toNat + 32) else c

/-- Splitting on the JS regex that matches an optional carriage return
followed by a newline (runner.js line 95): a CR immediately before an LF
is consumed with it, a lone CR is ordinary text. -/
def splitLinesAux : List Char → List Char → List (List Char)
  | [], acc => [acc.reverse]
  | '\r' :: '\n' :: rest, acc => acc.reverse :: splitLinesAux rest []
  | '\n' :: rest, acc => acc.reverse :: splitLinesAux rest []
  | c :: rest, acc => splitLinesAux rest (c :: acc)

def splitLines (l : List Char) : List (List Char) := splitLinesAux l []

/-- Test of runner.js line 96: the case-insensitive regex anchored at
line start, matching optional whitespace, the words Final Answer with a
single space, optional whitespace, then a colon. -/
def testFinalAnswerLine (l : List Char) : Bool :=
  let r := l.dropWhile isSpaceJS
  (r.take 12).map lcase = ("final answer").data &&
    ((r.drop 12).dropWhile isSpaceJS).take 1 = [':']

/-- Greedy match, at the head of the list, of the numeric regex of
runner.js line 98: optional minus sign, digits, optional dot-fraction,
optional exponent part (the case-insensitive flag also admits a capital
E).  Returns the matched characters.  The optional groups are greedy
with backtracking: a dot or an exponent marker not followed by a digit
is left unconsumed, exactly as the JS engine behaves. -/
def matchNumAt (l : List Char) : Option (List Char) :=
  let sr : List Char × List Char :=
    match l with
    | '-' :: r => (['-'], r)
    | _ => ([], l)
  let ds := sr.2.takeWhile Char.isDigit
  if ds = [] then none else
  let r2 := sr.2.drop ds.length
  let fr : List Char × List Char :=
    match r2 with
    | '.' :: r =>
      let fs := r.takeWhile Char.isDigit
      if fs = [] then ([], r2) else ('.' :: fs, r.drop fs.length)
    | _ => ([], r2)
  let ex : List Char :=
    match fr.2 with
    | c :: r =>
      if c = 'e' || c = 'E' then
        let sg : List Char × List Char :=
          match r with
          | '+' :: t => (['+'], t)
          | '-' :: t => (['-'], t)
          | _ => ([], r)
        let es := sg.2.takeWhile Char.isDigit
        if es = [] then [] else c :: (sg.1 ++ es)
      else []
    | [] => []
  some (sr.1 ++ ds ++ fr.1 ++ ex)

/-- Leftmost match: the JS engine tries successive start positions and
returns the first position where the pattern matches. -/
def firstMatch : List Char → Option (List Char)
  | [] => none
  | c :: rest =>
    match matchNumAt (c :: rest) with
    | some m => some m
    | none => firstMatch rest

/-- Decimal digits to a natural number. -/
def digitsToNat (ds : List Char) : Nat :=
  ds.foldl (fun acc c => 10 * acc + (c.toNat - 48)) 0

/-- Application of an optional exponent suffix to a parsed mantissa. -/
def applyExp (v : ℚ) (r : List Char) : ℚ :=
  match r with
  | c :: rest =>
    if c = 'e' || c = 'E' then
      match rest with
      | '-' :: es => v / 10 ^ digitsToNat (es.takeWhile Char.isDigit)
      | '+' :: es => v * 10 ^ digitsToNat (es.takeWhile Char.isDigit)
      | es => v * 10 ^ digitsToNat (es.takeWhile Char.isDigit)
    else v
  | [] => v

/-- Value of an unsigned numeral of the shape produced by matchNumAt. -/
def parseUnsigned (m : List Char) : ℚ :=
  let ds := m.takeWhile Char.isDigit
  let r1 := m.drop ds.length
  match r1 with
  | '.' :: r =>
    let fs := r.takeWhile Char.isDigit
    applyExp ((digitsToNat ds : ℚ) + (digitsToNat fs : ℚ) / 10 ^ fs.length)
      (r.drop fs.length)
  | _ => applyExp (digitsToNat ds : ℚ) r1

/-- JS Number conversion of a matched numeral, exact over the rationals. -/
def parseNum (m : List Char) : ℚ :=
  match m with
  | '-' :: rest => - parseUnsigned rest
  | _ => parseUnsigned m

/-- Embedding of extractFinalNumeric (runner.js lines 92-102): empty
text yields null; otherwise split into lines, prefer the first
final-answer line over the whole text (a falsy, i.e. empty, found line
would also fall back to the whole text, per the JS or-expression on
line 97), strip commas, take the leftmost numeric match and convert it.
The Number.isFinite guard of line 101 cannot fail over exact rationals;
in JS it only fails for numerals overflowing the double range. -/
def extractFinalNumeric (answerText : String) : Option ℚ :=
  let chars := answerText.data
  if chars = [] then none else
  let lines := splitLines chars
  let finalLine := lines.find? testFinalAnswerLine
  let target : List Char :=
    match finalLine with
    | some l => if l = [] then chars else l
    | none => chars
  let cleaned := target.filter (fun c => c ≠ ',')
  (firstMatch cleaned).map parseNum

/-- Embedding of round (runner.js lines 171-174): scale by a power of
ten, JS Math.round (floor of the argument plus one half, ties toward
positive infinity), scale back. -/
def roundTo (x : ℚ) (digits : Nat) : ℚ :=
  let p : ℚ := 10 ^ digits
  (⌊x * p + 1/2⌋ : ℚ) / p

/-- Embedding of isWithinTolerance (runner.js lines 104-108). -/
def isWithinTolerance (actual : Option ℚ) (expected toleranceRatio : ℚ) : Bool :=
  match actual with
  | none => false
  | some a => decide (|a - expected| ≤ |expected| * toleranceRatio)

example : extractFinalNumeric ("Step 1...\nFinal Answer: 1,234.5 J") = some (1234.5 : ℚ) := by decide
example : extractFinalNumeric ("Missing OPENAI_API_KEY") = none := by decide
example : isWithinTolerance (some 5.1) 5 0.05 = true := by decide
example : isWithinTolerance (some 5.3) 5 0.05 = false := by decide

/-- A problem of the catalog (runner.js lines 18-66). -/
structure Problem where
  id : String
  topic : String
  statement : String
  expectedValue : ℚ
  toleranceRatio : ℚ
  units : String
  septagonNodes : List String
deriving DecidableEq

/-- First catalog entry (runner.js lines 19-33). -/
def mechanicsA : Problem :=
  { id := "mechanics_a"
    topic := "Classical Mechanics"
    statement := "A 2 kg object is pulled with a horizontal force of 10 N on a frictionless surface. Calculate its acceleration."
    expectedValue := 5.0
    toleranceRatio := 0.05
    units := "m/s^2"
    septagonNodes :=
      [ "mass m = 2 kg", "horizontal force F = 10 N", "frictionless surface",
        "target: acceleration a" ] }

/-- Second catalog entry (runner.js lines 34-48). -/
def emBfield : Problem :=
  { id := "em_bfield"
    topic := "Electromagnetism"
    statement := "A long straight wire carries a current of 3 A. What is the magnetic field strength at a distance of 5 cm from the wire in vacuum?"
    expectedValue := 1.2e-5
    toleranceRatio := 0.1
    units := "T"
    septagonNodes :=
      [ "current I = 3 A", "distance r = 0.05 m", "constant mu0 = 4π × 10^-7 H/m",
        "target: magnetic field B" ] }

/-- Third catalog entry (runner.js lines 49-65). -/
def thermoWork : Problem :=
  { id := "thermo_work"
    topic := "Thermodynamics"
    statement := "In a closed system, 1 mol ideal gas undergoes isothermal expansion at T = 300 K from V1 = 2 L to V2 = 4 L. Compute the work done by the gas."
    expectedValue := 1728.5
    toleranceRatio := 0.05
    units := "J"
    septagonNodes :=
      [ "amount n = 1 mol", "temperature T = 300 K", "initial volume V1 = 2 L",
        "final volume V2 = 4 L", "process: isothermal", "target: work W" ] }

/-- The problem catalog (runner.js lines 18-66). -/
def problems : List Problem := [mechanicsA, emBfield, thermoWork]

/-- Embedding of buildLinearPrompt (runner.js lines 71-77); string
concatenation associates to the left as in the JS source. -/
def buildLinearPrompt (p : Problem) : String :=
  "You are given a physics problem. Solve it with step-by-step reasoning and provide the final numeric answer with units.\n"
    ++ ("Problem: " ++ p.statement ++ "\n")
    ++ "Output format: first show key formulas and steps, then a single final line starting with \"Final Answer:\" followed by the numeric value and units."

/-- Embedding of buildSeptagonPrompt (runner.js lines 79-87). -/
def buildSeptagonPrompt (p : Problem) : String :=
  let nodes := String.intercalate ("\n") (p.septagonNodes.map (fun n => "- " ++ n))
  "You are given the following non-linear septagon diagram nodes that encode the problem context. Use the relationships between nodes to reason and solve. Provide the final numeric answer with units.\n"
    ++ "Nodes:\n"
    ++ (nodes ++ "\n")
    ++ "Output format: first map nodes to formulas, then show reasoning steps, then a single final line starting with \"Final Answer:\" followed by the numeric value and units."

/-- Decimal digit to its character. -/
def natDigitChar (d : Nat) : Char := Char.ofNat (48 + d)

/-- Decimal digits of a natural number, most significant first; the
fuel bounds the digit count and is never exhausted below 10^30. -/
def natToDigitsAux : Nat → Nat → List Char
  | 0, _ => []
  | fuel+1, n =>
    if n < 10 then [natDigitChar n]
    else natToDigitsAux fuel (n / 10) ++ [natDigitChar (n % 10)]

def natToString (n : Nat) : String := String.mk (natToDigitsAux 30 n)

/-- Decimal expansion of a fractional part in [0,1); stops at the
exact representation (all rationals interpolated into strings by this
program have short terminating expansions). -/
def fracDigitsAux : Nat → ℚ → List Char
  | 0, _ => []
  | fuel+1, q =>
    if q = 0 then []
    else
      let q10 := q * 10
      natDigitChar (⌊q10⌋).toNat :: fracDigitsAux fuel (q10 - (⌊q10⌋ : ℚ))

/-- Modelled JS number-to-string conversion, as used by the template
literals of runner.js lines 196-197: shortest fixed decimal notation
without trailing zeros.  Exact for the values this program interpolates
(5, 1.2e-5, 1728.5, 0, 6.25, 2160.625); the JS exponent forms (below
1e-6 or at 1e21 and above) are never reached by them. -/
def jsNumToString (q : ℚ) : String :=
  let sgn := if q < 0 then "-" else ""
  let aq := if q < 0 then -q else q
  let ip := (⌊aq⌋).toNat
  let fp := aq - (⌊aq⌋ : ℚ)
  if fp = 0 then sgn ++ natToString ip
  else sgn ++ natToString ip ++ "." ++ String.mk (fracDigitsAux 25 fp)

/-- A synthetic baseline: mean latency and error probability. -/
structure Baseline where
  t : ℚ
  err : ℚ
deriving DecidableEq

/-- The literal lookup table of synthesizeTrial (runner.js lines
153-157); the optional-chaining lookup yields none for unknown pairs. -/
def meansTable (problemId representation : String) : Option Baseline :=
  match problemId, representation with
  | "mechanics_a", "linear" => some ⟨21.3, 0.28⟩
  | "mechanics_a", "septagon" => some ⟨18.0, 0.22⟩
  | "em_bfield", "linear" => some ⟨25.5, 0.31⟩
  | "em_bfield", "septagon" => some ⟨21.7, 0.25⟩
  | "thermo_work", "linear" => some ⟨23.4, 0.29⟩
  | "thermo_work", "septagon" => some ⟨19.6, 0.23⟩
  | _, _ => none

/-- JS Math.max on two numbers (NaN never arises here). -/
def maxJS (a b : ℚ) : ℚ := if a < b then b else a

/-- Embedding of synthesizeTrial (runner.js lines 151-162).  The two
random draws are passed in: z is the Box-Muller standard normal sample
of randn (runner.js lines 164-169, any real value), u the uniform
sample compared against the error rate on line 160. -/
def synthesizeTrial (problemId representation : String) (z u : ℚ) : ℚ × Bool :=
  let m := (meansTable problemId representation).getD ⟨22.0, 0.3⟩
  let timeSec := maxJS 5 (m.t + z * 1.2)
  let isError := decide (u < m.err)
  (roundTo timeSec 2, !isError)

/-- One row pushed by runTrials (runner.js lines 210-221). -/
structure TrialRecord where
  timestamp : String
  problem_id : String
  topic : String
  representation : String
  trial_index : Nat
  latency_sec : ℚ
  numeric_answer : Option ℚ
  expected_value : ℚ
  units : String
  correct : Bool
deriving DecidableEq

/-- The ambient environment of a run, passed explicitly: the API key
read on runner.js line 15, and per-trial streams for the black-box
service outcome, the wall-clock elapsed time, the two random draws and
the timestamp.  Stream index n is the global trial counter. -/
structure Env where
  apiKey : String
  responses : Nat → Except String String
  elapsedMs : Nat → ℚ
  noise : Nat → ℚ
  uniform : Nat → ℚ
  timestamps : Nat → String

/-- Embedding of callOpenAIChat (runner.js lines 113-146): with a falsy
(empty) key it throws Missing OPENAI_API_KEY before any request;
otherwise the HTTP call is the out-of-scope collaborator and its
outcome for the n-th trial is env.responses n, an error value carrying
the thrown message text (timeout abort, non-ok status of line 138, or
transport failure). -/
def callOpenAIChat (env : Env) (_model _prompt : String) (n : Nat) : Except String String :=
  if env.apiKey = "" then Except.error ("Missing OPENAI_API_KEY")
  else env.responses n

/-- Synthetic response text of the dry-run branch (runner.js lines
195-197). -/
def dryRunAnswerText (p : Problem) (correct : Bool) : String :=
  if correct then
    "...\nFinal Answer: " ++ jsNumToString p.expectedValue ++ " " ++ p.units
  else
    "...\nFinal Answer: " ++ jsNumToString (roundTo (p.expectedValue * 1.25) 3) ++ " " ++ p.units

/-- Body of the inner trial loop of runTrials (runner.js lines
182-222); i is the 0-based trial index within the problem, n the
global stream index.  In the live branch the catch of lines 202-204
turns a thrown error into the response text. -/
def oneTrial (representation : String) (dryRun : Bool) (model : String) (env : Env)
    (p : Problem) (i n : Nat) : TrialRecord :=
  let prompt := if representation = "linear" then buildLinearPrompt p else buildSeptagonPrompt p
  if dryRun then
    let synth := synthesizeTrial p.id representation (env.noise n) (env.uniform n)
    let latencySec := synth.1
    let correct := synth.2
    let answerText := dryRunAnswerText p correct
    let numeric := extractFinalNumeric answerText
    { timestamp := env.timestamps n, problem_id := p.id, topic := p.topic,
      representation := representation, trial_index := i + 1,
      latency_sec := roundTo latencySec 2, numeric_answer := numeric,
      expected_value := p.expectedValue, units := p.units, correct := correct }
  else
    let result := callOpenAIChat env model prompt n
    let answerText := match result with | Except.ok t => t | Except.error m => m
    let latencySec := env.elapsedMs n / 1000
    let numeric := extractFinalNumeric answerText
    let correct := isWithinTolerance numeric p.expectedValue p.toleranceRatio
    { timestamp := env.timestamps n, problem_id := p.id, topic := p.topic,
      representation := representation, trial_index := i + 1,
      latency_sec := roundTo latencySec 2, numeric_answer := numeric,
      expected_value := p.expectedValue, units := p.units, correct := correct }

/-- Embedding of runTrials (runner.js lines 179-225): every problem of
the catalog in order, trials attempts each, strictly sequential. -/
def runTrials (representation : String) (trials : Nat) (dryRun : Bool) (model : String)
    (env : Env) : List TrialRecord :=
  (problems.enum).flatMap (fun pe =>
    (List.range trials).map (fun i =>
      oneTrial representation dryRun model env pe.2 i (pe.1 * trials + i)))

/-- Grouping key of aggregate (runner.js line 228). -/
def recKey (r : TrialRecord) : String := r.problem_id ++ "__" ++ r.representation

/-- One step of Map key collection: a new key is appended, an existing
one leaves the key list unchanged (runner.js lines 230-234). -/
def keyStep (ks : List String) (r : TrialRecord) : List String :=
  if ks.contains (recKey r) then ks else ks ++ [recKey r]

/-- Keys of the JS Map of aggregate in insertion order (runner.js lines
229-234). -/
def keysInOrder (rows : List TrialRecord) : List String :=
  rows.foldl keyStep []

/-- JS String.split with separator consisting of two underscores
(runner.js line 237): non-overlapping, leftmost-first. -/
def splitKeyAux : List Char → List Char → List (List Char)
  | '_' :: '_' :: rest, acc => acc.reverse :: splitKeyAux rest []
  | c :: rest, acc => splitKeyAux rest (c :: acc)
  | [], acc => [acc.reverse]

def splitKey (k : String) : List String := (splitKeyAux k.data []).map String.mk

/-- One summary row per group (runner.js lines 236-243). -/
structure AggregateRecord where
  problem_id : String
  topic : String
  representation : String
  trials : Nat
  mean_latency_sec : ℚ
  error_rate : ℚ
deriving DecidableEq

/-- The members of a group: the Map of runner.js lines 229-234 pushes
each row onto the list of its key, preserving order, so a group equals
the filter of the rows by key. -/
def groupOf (rows : List TrialRecord) (k : String) : List TrialRecord :=
  rows.filter (fun r => recKey r == k)

/-- The aggregate row computed for one group (runner.js lines 236-242);
the destructuring of line 237 takes the first two split parts, and the
topic falls back to the empty string for a falsy head (line 241). -/
def mkAggregate (rows : List TrialRecord) (k : String) : AggregateRecord :=
  let arr := groupOf rows k
  let parts := splitKey k
  let latency := arr.map (fun x => x.latency_sec)
  let meanLatency := roundTo (latency.sum / (latency.length : ℚ)) 2
  let errRate := roundTo (1 - ((arr.filter (fun x => x.correct)).length : ℚ) / (arr.length : ℚ)) 3
  { problem_id := parts.getD 0 "", topic := ((arr.head?).map (fun r => r.topic)).getD "",
    representation := parts.getD 1 "", trials := arr.length,
    mean_latency_sec := meanLatency, error_rate := errRate }

/-- Embedding of aggregate (runner.js lines 227-245). -/
def aggregate (rows : List TrialRecord) : List AggregateRecord :=
  (keysInOrder rows).map (mkAggregate rows)

/-- Last line of a prompt string: its output-format instruction. -/
def lastLine (s : String) : String := String.mk ((splitLines s.data).getLastD [])

example : jsNumToString (1.2e-5 : ℚ) = "0.000012" := by decide
example : jsNumToString (roundTo ((1.2e-5 : ℚ) * 1.25) 3) = "0" := by decide
example : jsNumToString (1728.5 : ℚ) = "1728.5" := by decide

section HelperLemmas

theorem roundTo_eq (x : ℚ) (d : Nat) : roundTo x d = (⌊x * 10 ^ d + 1/2⌋ : ℚ) / 10 ^ d := rfl

theorem roundTo_mono_const {x : ℚ} {c : ℚ} (hc : ∃ n : ℤ, (n : ℚ) = c * 10 ^ 2)
    (h : c ≤ x) : c ≤ roundTo x 2 := by
  obtain ⟨n, hn⟩ := hc
  rw [roundTo_eq]
  rw [le_div_iff₀ (by positivity : (0:ℚ) < 10 ^ 2)]
  rw [← hn]
  have hfl : n ≤ ⌊x * 10 ^ 2 + 1/2⌋ := by
    apply Int.le_floor.mpr
    rw [hn]
    have : c * 10 ^ 2 ≤ x * 10 ^ 2 := by
      apply mul_le_mul_of_nonneg_right h (by positivity)
    linarith
  exact_mod_cast hfl

theorem roundTo_idem (x : ℚ) (d : Nat) : roundTo (roundTo x d) d = roundTo x d := by
  have hp : (0:ℚ) < 10 ^ d := by positivity
  rw [roundTo_eq x d, roundTo_eq]
  rw [div_mul_cancel₀ _ (ne_of_gt hp)]
  have h12 : ⌊(1/2 : ℚ)⌋ = 0 := by decide
  have hfl : ⌊((⌊x * 10 ^ d + 1/2⌋ : ℚ)) + 1/2⌋ = ⌊x * 10 ^ d + 1/2⌋ := by
    rw [Int.floor_int_add, h12, Int.add_zero]
  rw [hfl]

theorem maxJS_le_left (a b : ℚ) : a ≤ maxJS a b := by
  unfold maxJS
  split
  · exact le_of_lt (by assumption)
  · exact le_refl a

end HelperLemmas

/-- C5: the Correctness Checker returns false on a null extracted
value, otherwise compares the absolute deviation against the expected
value scaled by the tolerance with an inclusive boundary; an expected
value of zero forces an exact match; and the two concrete checks of the
spec hold. -/
theorem isWithinTolerance_spec :
    (∀ e t : ℚ, isWithinTolerance none e t = false) ∧
    (∀ a e t : ℚ, isWithinTolerance (some a) e t = true ↔ |a - e| ≤ |e| * t) ∧
    (∀ a t : ℚ, isWithinTolerance (some a) 0 t = true ↔ a = 0) ∧
    isWithinTolerance (some 5.1) 5 0.05 = true ∧
    isWithinTolerance (some 5.3) 5 0.05 = false := by
  refine ⟨fun e t => rfl, fun a e t => ?_, fun a t => ?_, by decide, by decide⟩
  · simp [isWithinTolerance]
  · simp [isWithinTolerance, abs_nonpos_iff, sub_eq_zero]

/-- C8: every latency produced by the Trial Synthesizer, for any
problem identifier and representation (known pairs and the default
fallback alike) and any random draws, is at least 5 and is a fixed
point of 2-decimal rounding. -/
theorem synthesizeTrial_latency_spec (problemId representation : String) (z u : ℚ) :
    5 ≤ (synthesizeTrial problemId representation z u).1 ∧
    roundTo (synthesizeTrial problemId representation z u).1 2
      = (synthesizeTrial problemId representation z u).1 := by
  constructor
  · show 5 ≤ roundTo (maxJS 5 _) 2
    exact roundTo_mono_const ⟨500, by norm_num⟩ (maxJS_le_left _ _)
  · show roundTo (roundTo (maxJS 5 _) 2) 2 = roundTo (maxJS 5 _) 2
    exact roundTo_idem _ 2

theorem dryRun_flag_agrees (p : Problem) (hp : p ∈ problems) (c : Bool) :
    isWithinTolerance (extractFinalNumeric (dryRunAnswerText p c))
      p.expectedValue p.toleranceRatio = c := by
  have hp3 : p = mechanicsA ∨ p = emBfield ∨ p = thermoWork := by
    simpa [problems] using hp
  rcases hp3 with rfl | rfl | rfl <;> cases c <;> decide

/-- C1: in the dry-run branch the recorded correctness flag is the
Bernoulli draw of the synthesizer (runner.js line 194); the synthetic
response text is built from the expected value (correct draw) or its
1.25-fold rounded offset (incorrect draw), and for every problem of the
catalog and either draw outcome re-running that text through the Answer
Extractor and the Correctness Checker yields exactly the recorded flag,
so the flag equals the checker verdict on the recorded extracted
answer as the claim states. -/
theorem dryRun_correct_flag_rederivable (p : Problem) (hp : p ∈ problems)
    (representation model : String) (env : Env) (i n : Nat) :
    (oneTrial representation true model env p i n).correct
      = isWithinTolerance (oneTrial representation true model env p i n).numeric_answer
          p.expectedValue p.toleranceRatio := by
  have h := dryRun_flag_agrees p hp
    (synthesizeTrial p.id representation (env.noise n) (env.uniform n)).2
  simp only [oneTrial, if_true]
  exact h.symm

/-- A concrete environment used to instantiate trial-level theorems. -/
def envDry : Env :=
  { apiKey := "", responses := fun _ => Except.ok "", elapsedMs := fun _ => 0,
    noise := fun _ => 0, uniform := fun _ => 0, timestamps := fun _ => "" }

theorem dryRun_correct_flag_rederivable_witness :
    (oneTrial ("linear") true ("gpt-4o-mini") envDry mechanicsA 0 0).correct
      = isWithinTolerance
          (oneTrial ("linear") true ("gpt-4o-mini") envDry mechanicsA 0 0).numeric_answer
          mechanicsA.expectedValue mechanicsA.toleranceRatio :=
  dryRun_correct_flag_rederivable mechanicsA (by decide) ("linear") ("gpt-4o-mini") envDry 0 0

theorem runTrials_length (representation : String) (trials : Nat) (dryRun : Bool)
    (model : String) (env : Env) :
    (runTrials representation trials dryRun model env).length = problems.length * trials := by
  simp [runTrials, problems, List.enum, List.enumFrom, Function.comp]
  ring

theorem extract_missing_key_msg : extractFinalNumeric ("Missing OPENAI_API_KEY") = none := by
  decide

theorem oneTrial_live_noKey (representation model : String) (env : Env)
    (hkey : env.apiKey = "") (p : Problem) (i n : Nat) :
    (oneTrial representation false model env p i n).numeric_answer = none ∧
    (oneTrial representation false model env p i n).correct = false := by
  have hcall : callOpenAIChat env model
      (if representation = "linear" then buildLinearPrompt p else buildSeptagonPrompt p) n
      = Except.error ("Missing OPENAI_API_KEY") := by
    simp [callOpenAIChat, hkey]
  simp only [oneTrial, if_false, Bool.false_eq_true, if_neg, hcall]
  simp [extract_missing_key_msg, isWithinTolerance]

/-- C2 counterexample: a live run with the API key absent (the empty
string, falsy in JS) still executes all trials — with one trial
requested per problem, three TrialRecords are produced, so the run does
not fail before any trial executes. -/
theorem missing_key_not_failfast_counterexample :
    (runTrials ("linear") 1 false ("gpt-4o-mini") envDry).length = 3 := by decide

/-- C2 as amended: with the API key missing in live mode the error
thrown by callOpenAIChat is caught by the per-trial handler of
runner.js lines 202-204, so every trial still executes — the run yields
one TrialRecord per problem and trial, and each record captures the
missing-credential message as its response text, which fails extraction
and is scored incorrect. -/
theorem missing_key_caught_per_trial (representation model : String) (trials : Nat)
    (env : Env) (hkey : env.apiKey = "") :
    (runTrials representation trials false model env).length = problems.length * trials ∧
    ∀ r ∈ runTrials representation trials false model env,
      r.numeric_answer = none ∧ r.correct = false := by
  refine ⟨runTrials_length _ _ _ _ _, ?_⟩
  intro r hr
  simp only [runTrials, List.mem_flatMap, List.mem_map] at hr
  obtain ⟨pe, _, i, _, rfl⟩ := hr
  exact oneTrial_live_noKey representation model env hkey pe.2 i _

theorem missing_key_caught_per_trial_witness :
    (runTrials ("linear") 1 false ("gpt-4o-mini") envDry).length = problems.length * 1 ∧
    ∀ r ∈ runTrials ("linear") 1 false ("gpt-4o-mini") envDry,
      r.numeric_answer = none ∧ r.correct = false :=
  missing_key_caught_per_trial ("linear") ("gpt-4o-mini") 1 envDry rfl

theorem runTrials_expand (representation : String) (trials : Nat) (dryRun : Bool)
    (model : String) (env : Env) :
    runTrials representation trials dryRun model env
      = ((List.range trials).map
          (fun j => oneTrial representation dryRun model env mechanicsA j (0 * trials + j)))
        ++ (((List.range trials).map
          (fun j => oneTrial representation dryRun model env emBfield j (1 * trials + j)))
        ++ ((List.range trials).map
          (fun j => oneTrial representation dryRun model env thermoWork j (2 * trials + j)))) := by
  simp [runTrials, problems, List.enum, List.enumFrom]

theorem runTrials_getElem (representation : String) (trials : Nat) (dryRun : Bool)
    (model : String) (env : Env) (pIdx i : Nat) (p : Problem)
    (hp : problems[pIdx]? = some p) (hi : i < trials) :
    (runTrials representation trials dryRun model env)[pIdx * trials + i]?
      = some (oneTrial representation dryRun model env p i (pIdx * trials + i)) := by
  have hlen : pIdx < 3 := by
    have h := (List.getElem?_eq_some_iff.mp hp).1
    simpa [problems] using h
  rw [runTrials_expand]
  interval_cases pIdx
  · have hpp : p = mechanicsA := by simpa [problems] using hp.symm
    subst hpp
    rw [List.getElem?_append_left (by simp only [List.length_map, List.length_range]; omega)]
    simp
    exact ⟨i, List.getElem?_range hi, rfl⟩
  · have hpp : p = emBfield := by simpa [problems] using hp.symm
    subst hpp
    rw [List.getElem?_append_right (by simp only [List.length_map, List.length_range]; omega)]
    simp only [List.length_map, List.length_range]
    rw [List.getElem?_append_left (by simp only [List.length_map, List.length_range]; omega)]
    simp
    exact ⟨i, List.getElem?_range hi, rfl⟩
  · have hpp : p = thermoWork := by simpa [problems] using hp.symm
    subst hpp
    rw [List.getElem?_append_right (by simp only [List.length_map, List.length_range]; omega)]
    simp only [List.length_map, List.length_range]
    rw [List.getElem?_append_right (by simp only [List.length_map, List.length_range]; omega)]
    simp only [List.length_map, List.length_range]
    simp
    have h2 : 2 * trials + i - trials - trials = i := by omega
    rw [h2]
    exact ⟨i, List.getElem?_range hi, rfl⟩

theorem oneTrial_live_error (representation model : String) (env : Env)
    (hkey : ¬ env.apiKey = "") (p : Problem) (i n : Nat) (msg : String)
    (hmsg : env.responses n = Except.error msg) :
    (oneTrial representation false model env p i n).numeric_answer = extractFinalNumeric msg ∧
    (oneTrial representation false model env p i n).correct
      = isWithinTolerance (extractFinalNumeric msg) p.expectedValue p.toleranceRatio := by
  simp only [oneTrial, callOpenAIChat, hkey, if_false, Bool.false_eq_true, if_neg, hmsg]
  simp

/-- C7: in live mode (key present), when the service call of some trial
fails with an error message, the Trial Executor still produces the full
record sequence — one record per problem and trial — and the record of
the failing trial stores the extraction of the error message as its
numeric answer and the checker verdict on it as its correctness flag
(captured error text, scored normally, run not aborted). -/
theorem live_failure_isolated (env : Env) (representation model : String) (trials : Nat)
    (pIdx i : Nat) (p : Problem) (msg : String)
    (hkey : ¬ env.apiKey = "")
    (hp : problems[pIdx]? = some p) (hi : i < trials)
    (hmsg : env.responses (pIdx * trials + i) = Except.error msg) :
    (runTrials representation trials false model env).length = problems.length * trials ∧
    ∃ r : TrialRecord,
      (runTrials representation trials false model env)[pIdx * trials + i]? = some r ∧
      r.numeric_answer = extractFinalNumeric msg ∧
      r.correct = isWithinTolerance (extractFinalNumeric msg) p.expectedValue p.toleranceRatio := by
  refine ⟨runTrials_length _ _ _ _ _, ?_⟩
  refine ⟨oneTrial representation false model env p i (pIdx * trials + i), ?_, ?_, ?_⟩
  · exact runTrials_getElem representation trials false model env pIdx i p hp hi
  · exact (oneTrial_live_error representation model env hkey p i _ msg hmsg).1
  · exact (oneTrial_live_error representation model env hkey p i _ msg hmsg).2

/-- A live environment whose every service call fails. -/
def envLiveErr : Env :=
  { apiKey := "k", responses := fun _ => Except.error ("network error"),
    elapsedMs := fun _ => 0, noise := fun _ => 0, uniform := fun _ => 0,
    timestamps := fun _ => "" }

theorem live_failure_isolated_witness :
    (runTrials ("linear") 1 false ("gpt-4o-mini") envLiveErr).length = problems.length * 1 ∧
    ∃ r : TrialRecord,
      (runTrials ("linear") 1 false ("gpt-4o-mini") envLiveErr)[0 * 1 + 0]? = some r ∧
      r.numeric_answer = extractFinalNumeric ("network error") ∧
      r.correct = isWithinTolerance (extractFinalNumeric ("network error"))
        mechanicsA.expectedValue mechanicsA.toleranceRatio :=
  live_failure_isolated envLiveErr ("linear") ("gpt-4o-mini") 1 0 0 mechanicsA
    ("network error") (by decide) (by decide) (by decide) rfl

section AggregateLemmas

theorem keysFold_mono : ∀ (rows : List TrialRecord) (acc : List String) (k : String),
    k ∈ acc → k ∈ rows.foldl keyStep acc := by
  intro rows
  induction rows with
  | nil => intro acc k hk; simpa using hk
  | cons r rs ih =>
    intro acc k hk
    simp only [List.foldl_cons]
    apply ih
    unfold keyStep
    split
    · exact hk
    · exact List.mem_append_left _ hk

theorem keysFold_mem_key : ∀ (rows : List TrialRecord) (acc : List String) (r : TrialRecord),
    r ∈ rows → recKey r ∈ rows.foldl keyStep acc := by
  intro rows
  induction rows with
  | nil => intro acc r hr; cases hr
  | cons s rs ih =>
    intro acc r hr
    simp only [List.foldl_cons]
    rcases List.mem_cons.mp hr with heq | hr2
    · subst heq
      apply keysFold_mono
      unfold keyStep
      split
      · next hc => simpa using hc
      · exact List.mem_append_right _ (List.mem_singleton_self _)
    · exact ih _ r hr2

theorem keysFold_source : ∀ (rows : List TrialRecord) (acc : List String) (k : String),
    k ∈ rows.foldl keyStep acc → k ∈ acc ∨ ∃ r ∈ rows, recKey r = k := by
  intro rows
  induction rows with
  | nil => intro acc k hk; exact Or.inl (by simpa using hk)
  | cons r rs ih =>
    intro acc k hk
    simp only [List.foldl_cons] at hk
    rcases ih (keyStep acc r) k hk with h | ⟨s, hs, hsk⟩
    · unfold keyStep at h
      split at h
      · exact Or.inl h
      · rcases List.mem_append.mp h with h1 | h1
        · exact Or.inl h1
        · exact Or.inr ⟨r, List.mem_cons_self _ _, (List.mem_singleton.mp h1).symm⟩
    · exact Or.inr ⟨s, List.mem_cons_of_mem _ hs, hsk⟩

theorem keysInOrder_mem_iff (rows : List TrialRecord) (k : String) :
    k ∈ keysInOrder rows ↔ ∃ r ∈ rows, recKey r = k := by
  constructor
  · intro h
    rcases keysFold_source rows [] k h with h0 | h1
    · cases h0
    · exact h1
  · rintro ⟨r, hr, rfl⟩
    exact keysFold_mem_key rows [] r hr

theorem keysFold_nodup : ∀ (rows : List TrialRecord) (acc : List String),
    acc.Nodup → (rows.foldl keyStep acc).Nodup := by
  intro rows
  induction rows with
  | nil => intro acc h; simpa using h
  | cons r rs ih =>
    intro acc hacc
    simp only [List.foldl_cons]
    apply ih
    unfold keyStep
    split
    · exact hacc
    · next hc =>
      have hnr : recKey r ∉ acc := fun hmem => hc (by simpa using hmem)
      simp [List.nodup_append, hacc, List.disjoint_singleton, hnr]

theorem keysInOrder_nodup (rows : List TrialRecord) : (keysInOrder rows).Nodup :=
  keysFold_nodup rows [] (by simp)

theorem mkAggregate_trials (rows : List TrialRecord) (k : String) :
    (mkAggregate rows k).trials = (groupOf rows k).length := rfl

theorem keysFold_const : ∀ (rs : List TrialRecord) (k : String),
    (∀ r ∈ rs, recKey r = k) → rs.foldl keyStep [k] = [k] := by
  intro rs
  induction rs with
  | nil => intro k _; rfl
  | cons r t ih =>
    intro k hall
    have hk : recKey r = k := hall r (List.mem_cons_self _ _)
    simp only [List.foldl_cons, keyStep, hk]
    rw [if_pos (by simp)]
    exact ih k (fun s hs => hall s (List.mem_cons_of_mem _ hs))

theorem keysInOrder_const (rows : List TrialRecord) (k : String)
    (hne : rows ≠ []) (hall : ∀ r ∈ rows, recKey r = k) : keysInOrder rows = [k] := by
  match rows, hne with
  | r :: rs, _ =>
    have hk : recKey r = k := hall r (List.mem_cons_self _ _)
    unfold keysInOrder
    simp only [List.foldl_cons, keyStep, hk]
    rw [if_neg (by simp)]
    simp only [List.nil_append]
    exact keysFold_const rs k (fun s hs => hall s (List.mem_cons_of_mem _ hs))

theorem groupOf_all (rows : List TrialRecord) (k : String)
    (hall : ∀ r ∈ rows, recKey r = k) : groupOf rows k = rows := by
  unfold groupOf
  rw [List.filter_eq_self]
  intro r hr
  simpa using hall r hr

end AggregateLemmas

/-- A record whose problem identifier itself contains the two-underscore
separator used by the grouping key. -/
def recSepInId : TrialRecord :=
  { timestamp := "", problem_id := "a__b", topic := "t", representation := "c",
    trial_index := 1, latency_sec := 10, numeric_answer := none, expected_value := 1,
    units := "u", correct := true }

/-- A record with a different (identifier, representation) pair that
produces the same grouping key as recSepInId. -/
def recSepInRep : TrialRecord :=
  { timestamp := "", problem_id := "a", topic := "t", representation := "b__c",
    trial_index := 1, latency_sec := 20, numeric_answer := none, expected_value := 1,
    units := "u", correct := false }

/-- C3 counterexample: the Aggregator does not group by exact
string-pair equality.  The two records have different problem
identifiers (and different representations), yet their keys coincide
because the identifier of the first contains the separator, so the
Aggregator emits a single AggregateRecord instead of two. -/
theorem aggregate_not_pair_grouping_counterexample :
    (aggregate [recSepInId, recSepInRep]).length = 1 ∧
    recSepInId.problem_id ≠ recSepInRep.problem_id := by decide

/-- C3 as amended: the Aggregator produces exactly one AggregateRecord
per distinct key string (the problem identifier, the two-underscore
separator, and the representation concatenated) — a record belongs to
the group of key k exactly when its own key string equals k, so two
records fall in the same group if and only if their key strings are
equal; records with equal identifier and representation always share a
group, but distinct pairs can collide on the key, so grouping is not
exact string-pair equality — and for each group it reports the trial
count, the mean latency rounded to 2 decimals, and the error rate equal
to 1 minus the fraction of correct records rounded to 3 decimals. -/
theorem aggregate_groups_by_key (rows : List TrialRecord) :
    (aggregate rows).length = (keysInOrder rows).length ∧
    (keysInOrder rows).Nodup ∧
    (∀ k : String, k ∈ keysInOrder rows ↔ ∃ r ∈ rows, recKey r = k) ∧
    (∀ (r : TrialRecord) (k : String), r ∈ rows → (r ∈ groupOf rows k ↔ recKey r = k)) ∧
    (∀ r s : TrialRecord, r.problem_id = s.problem_id →
      r.representation = s.representation → recKey r = recKey s) ∧
    ∀ (i : Nat) (k : String), (keysInOrder rows)[i]? = some k →
      ∃ a : AggregateRecord, (aggregate rows)[i]? = some a ∧
        a.trials = (groupOf rows k).length ∧
        a.mean_latency_sec
          = roundTo (((groupOf rows k).map (fun x => x.latency_sec)).sum
              / ((groupOf rows k).length : ℚ)) 2 ∧
        a.error_rate
          = roundTo (1 - (((groupOf rows k).filter (fun x => x.correct)).length : ℚ)
              / ((groupOf rows k).length : ℚ)) 3 := by
  refine ⟨by simp [aggregate], keysInOrder_nodup rows, keysInOrder_mem_iff rows, ?_, ?_, ?_⟩
  · intro r k hr
    simp [groupOf, List.mem_filter, hr]
  · intro r s h1 h2
    unfold recKey
    rw [h1, h2]
  · intro i k hk
    refine ⟨mkAggregate rows k, ?_, rfl, ?_, rfl⟩
    · simp [aggregate, List.getElem?_map, hk]
    · simp [mkAggregate, List.length_map]

theorem aggregate_groups_by_key_witness :
    ∃ a : AggregateRecord, (aggregate [recSepInId])[0]? = some a ∧
      a.trials = (groupOf [recSepInId] ("a__b__c")).length ∧
      a.mean_latency_sec
        = roundTo (((groupOf [recSepInId] ("a__b__c")).map (fun x => x.latency_sec)).sum
            / ((groupOf [recSepInId] ("a__b__c")).length : ℚ)) 2 ∧
      a.error_rate
        = roundTo (1 - (((groupOf [recSepInId] ("a__b__c")).filter (fun x => x.correct)).length : ℚ)
            / ((groupOf [recSepInId] ("a__b__c")).length : ℚ)) 3 :=
  (aggregate_groups_by_key [recSepInId]).2.2.2.2.2 0 ("a__b__c") (by decide)

/-- C9: aggregation is deterministic — aggregating the same record
sequence twice yields identical output — and additive on a single
group: for two nonempty record sets all of whose members carry the same
problem identifier and representation, aggregating the concatenation
yields one record whose trial count is the sum of the lengths, equal to
the sum of the trial counts of the two separate aggregations. -/
theorem aggregate_deterministic_additive :
    (∀ rows : List TrialRecord, aggregate rows = aggregate rows) ∧
    (∀ (xs ys : List TrialRecord) (pid rep : String),
      xs ≠ [] → ys ≠ [] →
      (∀ r ∈ xs, r.problem_id = pid ∧ r.representation = rep) →
      (∀ r ∈ ys, r.problem_id = pid ∧ r.representation = rep) →
      ∃ a ax ay : AggregateRecord,
        aggregate (xs ++ ys) = [a] ∧ aggregate xs = [ax] ∧ aggregate ys = [ay] ∧
        a.trials = xs.length + ys.length ∧ a.trials = ax.trials + ay.trials) := by
  refine ⟨fun rows => rfl, ?_⟩
  intro xs ys pid rep hxne hyne hxall hyall
  have hxk : ∀ r ∈ xs, recKey r = pid ++ "__" ++ rep := by
    intro r hr
    obtain ⟨h1, h2⟩ := hxall r hr
    unfold recKey
    rw [h1, h2]
  have hyk : ∀ r ∈ ys, recKey r = pid ++ "__" ++ rep := by
    intro r hr
    obtain ⟨h1, h2⟩ := hyall r hr
    unfold recKey
    rw [h1, h2]
  have hzk : ∀ r ∈ xs ++ ys, recKey r = pid ++ "__" ++ rep := by
    intro r hr
    rcases List.mem_append.mp hr with h | h
    · exact hxk r h
    · exact hyk r h
  have hzne : xs ++ ys ≠ [] := by
    simp only [ne_eq, List.append_eq_nil]
    intro hcon
    exact hxne hcon.1
  refine ⟨mkAggregate (xs ++ ys) (pid ++ "__" ++ rep), mkAggregate xs (pid ++ "__" ++ rep),
    mkAggregate ys (pid ++ "__" ++ rep), ?_, ?_, ?_, ?_, ?_⟩
  · unfold aggregate
    rw [keysInOrder_const _ _ hzne hzk]
    rfl
  · unfold aggregate
    rw [keysInOrder_const _ _ hxne hxk]
    rfl
  · unfold aggregate
    rw [keysInOrder_const _ _ hyne hyk]
    rfl
  · rw [mkAggregate_trials, groupOf_all _ _ hzk, List.length_append]
  · rw [mkAggregate_trials, mkAggregate_trials, mkAggregate_trials,
      groupOf_all _ _ hzk, groupOf_all _ _ hxk, groupOf_all _ _ hyk, List.length_append]

/-- A sample record for instantiating the aggregation theorems. -/
def recSampleA : TrialRecord :=
  { timestamp := "", problem_id := "p", topic := "t", representation := "linear",
    trial_index := 1, latency_sec := 10, numeric_answer := none, expected_value := 5,
    units := "u", correct := false }

/-- A second sample record of the same group. -/
def recSampleB : TrialRecord :=
  { recSampleA with trial_index := 2, latency_sec := 20, correct := true }

theorem aggregate_deterministic_additive_witness :
    ∃ a ax ay : AggregateRecord,
      aggregate ([recSampleA] ++ [recSampleB]) = [a] ∧ aggregate [recSampleA] = [ax] ∧
      aggregate [recSampleB] = [ay] ∧
      a.trials = [recSampleA].length + [recSampleB].length ∧
      a.trials = ax.trials + ay.trials :=
  aggregate_deterministic_additive.2 [recSampleA] [recSampleB] ("p") ("linear")
    (by decide) (by decide) (by decide) (by decide)

/-- C10: the Aggregator is total — the empty record sequence yields the
empty aggregate sequence — and every emitted AggregateRecord comes from
a nonempty group, so its trial count is at least one and the divisions
defining mean latency and error rate have a nonzero denominator. -/
theorem aggregate_total_never_divzero :
    aggregate ([] : List TrialRecord) = [] ∧
    ∀ (rows : List TrialRecord) (a : AggregateRecord), a ∈ aggregate rows → 1 ≤ a.trials := by
  refine ⟨rfl, ?_⟩
  intro rows a ha
  obtain ⟨k, hk, rfl⟩ := List.mem_map.mp ha
  obtain ⟨r, hr, hrk⟩ := (keysInOrder_mem_iff rows k).mp hk
  rw [mkAggregate_trials]
  have hmem : r ∈ groupOf rows k := by
    unfold groupOf
    exact List.mem_filter.mpr ⟨hr, by simpa using hrk⟩
  have hpos := List.length_pos.mpr (List.ne_nil_of_mem hmem)
  omega

theorem aggregate_total_never_divzero_witness :
    1 ≤ (mkAggregate [recSampleA] (recKey recSampleA)).trials :=
  aggregate_total_never_divzero.2 [recSampleA]
    (mkAggregate [recSampleA] (recKey recSampleA)) (by decide)

/-- Final-answer line test formalizing claim C4 read literally: after
optional leading whitespace the line starts, case-insensitively, with
the literal marker Final Answer followed immediately by the colon. -/
def claimLineTestStrict (l : List Char) : Bool :=
  ((l.dropWhile isSpaceJS).take 13).map lcase = ("final answer:").data

/-- Final-answer line test of the claim as amended: whitespace is also
permitted between the marker words and the colon, which is what the
source regex accepts. -/
def claimLineTestAmended (l : List Char) : Bool :=
  let r := l.dropWhile isSpaceJS
  (r.take 12).map lcase = ("final answer").data &&
    ((r.drop 12).dropWhile isSpaceJS).take 1 = [':']

/-- The extraction pipeline described by claim C4, parametric in the
line test: split into lines; the scope is the first line passing the
test, else the whole text; strip commas from the scope; the result is
the first left-to-right numeric match parsed, null when there is no
match. -/
def extractPerClaim (test : List Char → Bool) (s : String) : Option ℚ :=
  let scope : List Char :=
    match (splitLines s.data).find? test with
    | some l => l
    | none => s.data
  (firstMatch (scope.filter (fun c => c ≠ ','))).map parseNum

/-- C4 counterexample: on this text the final-answer marker has a space
before its colon.  The extractor still selects that line (the source
regex permits whitespace before the colon) and returns 7, while under
the claim as stated no line starts with the literal marker and colon,
so the scope is the whole text and the first number is 3. -/
theorem extractor_strict_marker_counterexample :
    extractFinalNumeric ("see 3 below\nFinal Answer : 7") = some 7 ∧
    extractPerClaim claimLineTestStrict ("see 3 below\nFinal Answer : 7") = some 3 ∧
    extractFinalNumeric ("see 3 below\nFinal Answer : 7")
      ≠ extractPerClaim claimLineTestStrict ("see 3 below\nFinal Answer : 7") := by decide

theorem testFinalAnswerLine_ne_nil {l : List Char}
    (h : testFinalAnswerLine l = true) : l ≠ [] := by
  intro hnil
  rw [hnil] at h
  exact absurd h (by decide)

/-- C4 as amended: for every input text the extractor behaves exactly
as the claim describes once the line test also allows optional
whitespace between the Final Answer marker and the colon; and the
concrete example with a thousands separator yields 1234.5. -/
theorem extractor_matches_claim_description :
    (∀ s : String, extractFinalNumeric s = extractPerClaim claimLineTestAmended s) ∧
    extractFinalNumeric ("Step 1...\nFinal Answer: 1,234.5 J") = some (1234.5 : ℚ) := by
  constructor
  · intro s
    simp only [extractFinalNumeric, extractPerClaim]
    have htest : claimLineTestAmended = testFinalAnswerLine := rfl
    rw [htest]
    by_cases hnil : s.data = []
    · rw [if_pos hnil, hnil]
      have hfind : (splitLines []).find? testFinalAnswerLine = none := by decide
      rw [hfind]
      rfl
    · rw [if_neg hnil]
      cases hf : (splitLines s.data).find? testFinalAnswerLine with
      | none => simp [hf]
      | some l =>
        have hl : l ≠ [] := testFinalAnswerLine_ne_nil (List.find?_some hf)
        simp [hf, hl]
  · decide

/-- C6 counterexample: the two builders do not emit the same
output-format instruction — on the first catalog problem the final line
of the linear prompt differs from that of the structured-graph
prompt (first show key formulas and steps, versus first map nodes to
formulas, then show reasoning steps). -/
theorem prompt_instruction_differs_counterexample :
    lastLine (buildLinearPrompt mechanicsA) ≠ lastLine (buildSeptagonPrompt mechanicsA) := by
  decide

/-- The shared tail of both output-format instructions: the Final
Answer convention. -/
def finalAnswerConvention : String :=
  "then a single final line starting with \"Final Answer:\" followed by the numeric value and units."

/-- C6 as amended: the two output-format instructions differ in their
leading clause, but for every problem both prompts end with the
identical Final Answer convention text, so the Answer Extractor keys on
the same marker regardless of representation. -/
theorem prompts_share_final_answer_convention (p : Problem) :
    (∃ s : String, buildLinearPrompt p = s ++ finalAnswerConvention) ∧
    (∃ t : String, buildSeptagonPrompt p = t ++ finalAnswerConvention) := by
  constructor
  · refine ⟨"You are given a physics problem. Solve it with step-by-step reasoning and provide the final numeric answer with units.\n"
      ++ ("Problem: " ++ p.statement ++ "\n")
      ++ "Output format: first show key formulas and steps, ", ?_⟩
    unfold buildLinearPrompt
    conv_rhs => rw [String.append_assoc]
    congr 1
  · refine ⟨"You are given the following non-linear septagon diagram nodes that encode the problem context. Use the relationships between nodes to reason and solve. Provide the final numeric answer with units.\n"
      ++ "Nodes:\n"
      ++ (String.intercalate ("\n") (p.septagonNodes.map (fun n => "- " ++ n)) ++ "\n")
      ++ "Output format: first map nodes to formulas, then show reasoning steps, ", ?_⟩
    simp only [buildSeptagonPrompt]
    conv_rhs => rw [String.append_assoc]
    congr 1

end Runner
